import Mathlib

/-!
Verification development for the mcp-servers batch-normalization scripts
(`fix_branches.py`, `rename_files.py`, `fix_ids.py`).

The Python code is shallowly embedded: JSON records become Lean structures
with `Option` fields for possibly-absent keys, Python string operations are
re-implemented over `List Char` with Python semantics, the git backend is an
oracle of success/failure outcomes plus an explicit working-tree state, and
exceptions become `Except`.
-/

/-! ## Python string primitives (over `List Char`) -/

/-- Python truthiness-relevant whitespace for `str.strip` (ASCII subset). -/
def pyWSb (c : Char) : Bool :=
  c == ' ' || c == '\t' || c == '\n' || c == '\r' || c == '\x0b' || c == '\x0c'

/-- `str.strip()` on the character list: drop leading and trailing whitespace. -/
def stripCh (l : List Char) : List Char :=
  ((l.dropWhile pyWSb).reverse.dropWhile pyWSb).reverse

/-- `str.strip()`. -/
def pyStrip (s : String) : String := ⟨stripCh s.data⟩

/-- `str.split(sep)` for a one-character separator, on character lists.
Matches Python: `"".split(c) = [""]`, empty chunks are kept. -/
def splitBy (p : Char → Bool) : List Char → List (List Char)
  | [] => [[]]
  | c :: rest =>
    let r := splitBy p rest
    if p c then [] :: r
    else match r with
      | [] => [[c]]
      | h :: t => (c :: h) :: t

/-- `str.split('\n')`. -/
def splitLinesStr (s : String) : List String :=
  (splitBy (· == '\n') s.data).map (fun l => ⟨l⟩)

/-- `str.replace(pat, rep)` on character lists: replace all non-overlapping
occurrences left to right.  (For the empty pattern Python interleaves `rep`
everywhere; the scripts only use non-empty patterns, for which this function
is faithful, and for the empty pattern it is the identity.) -/
def replaceAllAux (pat rep : List Char) : Nat → List Char → List Char
  | 0, l => l
  | n + 1, l =>
    match l with
    | [] => []
    | c :: rest =>
      if pat ≠ [] ∧ pat.isPrefixOf (c :: rest) then
        rep ++ replaceAllAux pat rep n ((c :: rest).drop pat.length)
      else c :: replaceAllAux pat rep n rest

def replaceAll (pat rep l : List Char) : List Char := replaceAllAux pat rep l.length l

/-- The fuel of `replaceAllAux` is irrelevant once it covers the input length. -/
theorem replaceAllAux_fuel (pat rep : List Char) :
    ∀ n m l, l.length ≤ n → l.length ≤ m →
      replaceAllAux pat rep n l = replaceAllAux pat rep m l := by
  intro n
  induction n with
  | zero =>
    intro m l hn _
    have : l = [] := List.eq_nil_of_length_eq_zero (Nat.le_zero.mp hn)
    subst this
    cases m <;> rfl
  | succ n ih =>
    intro m l hn hm
    cases l with
    | nil => cases m <;> rfl
    | cons c rest =>
      cases m with
      | zero => exact absurd hm (by simp)
      | succ m =>
        simp only [replaceAllAux]
        by_cases hc : pat ≠ [] ∧ pat.isPrefixOf (c :: rest)
        · rw [if_pos hc, if_pos hc]
          have hlen : ((c :: rest).drop pat.length).length ≤ rest.length := by
            have hp : 0 < pat.length := List.length_pos.mpr hc.1
            simp only [List.length_drop, List.length_cons]
            omega
          have hrn : rest.length ≤ n := by simp only [List.length_cons] at hn; omega
          have hrm : rest.length ≤ m := by simp only [List.length_cons] at hm; omega
          rw [ih m _ (le_trans hlen hrn) (le_trans hlen hrm)]
        · rw [if_neg hc, if_neg hc]
          have hrn : rest.length ≤ n := by simp only [List.length_cons] at hn; omega
          have hrm : rest.length ≤ m := by simp only [List.length_cons] at hm; omega
          rw [ih m rest hrn hrm]

/-- `str.replace(pat, rep)`. -/
def pyReplace (s pat rep : String) : String := ⟨replaceAll pat.data rep.data s.data⟩

/-- `suf in s` as a suffix test: Python `str.endswith`. -/
def pyEndsWith (s suf : String) : Bool := suf.data.isSuffixOf s.data

/-- Python `pat in s` substring containment over character lists. -/
def containsSub (s pat : List Char) : Bool :=
  if pat.isPrefixOf s then true
  else match s with
    | [] => false
    | _ :: t => containsSub t pat

/-- Python `str.lower()` (ASCII-faithful; the scripts only compare ASCII). -/
def pyLower (s : String) : String := ⟨s.data.map Char.toLower⟩

/-- `os.path.basename`: last component after splitting on `/` or `\`. -/
def pyBasename (s : String) : String :=
  ⟨(splitBy (fun c => c == '/' || c == '\\') s.data).getLastD []⟩

/-! ## The ServerRecord data model (the JSON fields the scripts touch)

`Option` encodes key absence; `extra` carries any other keys, which the
scripts never read or write (Python mutates the parsed dicts in place, so
unknown keys survive untouched). -/

structure InputRec where
  id : Option String := none
  ty : Option String := none          -- the JSON key "type"
  extra : List (String × String) := []
  deriving Repr, DecidableEq

structure MetadataRec where
  inputs : Option (List InputRec) := none
  extra : List (String × String) := []
  deriving Repr, DecidableEq

structure TransportRec where
  ttype : Option String := none       -- the JSON key "type"
  command : Option String := none
  args : Option (List String) := none
  metadata : Option MetadataRec := none
  extra : List (String × String) := []
  deriving Repr, DecidableEq

structure LinksRec where
  repository : Option String := none
  documentation : Option String := none
  extra : List (String × String) := []
  deriving Repr, DecidableEq

structure ServerRecord where
  id : Option String := none
  name : Option String := none
  icon : Option String := none
  links : Option LinksRec := none
  transport : Option TransportRec := none
  extra : List (String × String) := []
  deriving Repr, DecidableEq

/-! ## fix_branches.py: the fix tables -/

def ICON_FIXES : List (String × String) :=
  [("community.filesystem", "https://avatars.githubusercontent.com/u/182288589?v=4"),
   ("community.puppeteer", "https://avatars.githubusercontent.com/u/182288589?v=4"),
   ("community.sqlite", "https://avatars.githubusercontent.com/u/182288589?v=4"),
   ("community.fetch", "https://avatars.githubusercontent.com/u/182288589?v=4"),
   ("community.memory", "https://avatars.githubusercontent.com/u/182288589?v=4"),
   ("community.sequential-thinking", "https://avatars.githubusercontent.com/u/182288589?v=4"),
   ("community.postgresql", "https://www.postgresql.org/media/img/about/press/elephant.png"),
   ("community.gitlab", "https://avatars.githubusercontent.com/u/1086321?v=4"),
   ("community.google-maps", "https://avatars.githubusercontent.com/u/1342004?v=4")]

def REPO_FIXES : List (String × String) :=
  [("com.hubspot-mcp", "https://github.com/HubSpot/mcp-server"),
   ("com.resend-mcp", "https://github.com/resend/resend-mcp"),
   ("com.pagerduty-mcp", "https://github.com/PagerDuty/pagerduty-mcp-server")]

def DOC_FIXES : List (String × String) :=
  [("community.postgresql",
    "https://github.com/modelcontextprotocol/servers/tree/main/src/postgres#readme")]

/-- `PACKAGE_FIXES`: server id ↦ corrected `transport.args`. -/
def PACKAGE_FIXES : List (String × List String) :=
  [("com.pagerduty-mcp", ["pagerduty-mcp"])]

def STYTCH_REPO : String := "https://github.com/stytchauth/stytch-mcp"

def VALID_INPUT_TYPES : List String :=
  ["text", "number", "boolean", "url", "select", "file_path", "directory_path"]

/-! ## fix_branches.py: fix_definition -/

/-- `inp.get('type') not in VALID_INPUT_TYPES`, negated: a `None` type is
never in the list of strings. -/
def isValidTy (t : Option String) : Bool :=
  match t with
  | some s => decide (s ∈ VALID_INPUT_TYPES)
  | none => false

/-- Python `f"{x}"` of an optional string: `None` prints as `"None"`. -/
def pyShowOpt : Option String → String
  | some s => s
  | none => "None"

/-- The fix message `f"input type '{old_type}' -> 'text' for {inp['id']}"`. -/
def mkFixMsg (oldTy : Option String) (idv : String) : String :=
  "input type '" ++ pyShowOpt oldTy ++ "' -> 'text' for " ++ idv

/-- The input-repair loop of `fix_definition` (lines 70-74): every input whose
type is outside the enumeration is rewritten to `'text'` with one fix message;
reading `inp['id']` of such an input raises `KeyError('id')` (rendered `'id'`). -/
def fixInputs : List InputRec → Except String (List InputRec × List String)
  | [] => .ok ([], [])
  | inp :: rest =>
    if isValidTy inp.ty then
      match fixInputs rest with
      | .error e => .error e
      | .ok (rest', fs) => .ok (inp :: rest', fs)
    else
      match inp.id with
      | none => .error "'id'"
      | some idv =>
        match fixInputs rest with
        | .error e => .error e
        | .ok (rest', fs) => .ok ({inp with ty := some "text"} :: rest', mkFixMsg inp.ty idv :: fs)

/-- `data.get('transport', {}).get('metadata', {}).get('inputs', [])`. -/
def getInputs (d : ServerRecord) : List InputRec :=
  (((d.transport.getD {}).metadata.getD {}).inputs.getD [])

/-- Writes the repaired inputs back through the alias chain: in Python the
input dicts are mutated in place, so the record only changes when the
`transport.metadata.inputs` chain actually exists. -/
def setInputs (d : ServerRecord) (l : List InputRec) : ServerRecord :=
  match d.transport with
  | none => d
  | some t =>
    match t.metadata with
    | none => d
    | some m =>
      match m.inputs with
      | none => d
      | some _ => {d with transport := some {t with metadata := some {m with inputs := some l}}}

/-- Icon repair (lines 77-82). -/
def iconRule (d : ServerRecord) (sid : String) : ServerRecord × List String :=
  match ICON_FIXES.lookup sid with
  | none => (d, [])
  | some newIcon =>
    if d.icon.getD "" ≠ newIcon then ({d with icon := some newIcon}, ["icon updated"])
    else (d, [])

/-- Repository-link repair (lines 85-90). -/
def repoRule (d : ServerRecord) (sid : String) : ServerRecord × List String :=
  match REPO_FIXES.lookup sid with
  | none => (d, [])
  | some url =>
    let links := d.links.getD {}
    if links.repository ≠ some url then
      ({d with links := some {links with repository := some url}}, ["repo URL fixed"])
    else (d, [])

/-- Documentation-link repair (lines 93-98). -/
def docRule (d : ServerRecord) (sid : String) : ServerRecord × List String :=
  match DOC_FIXES.lookup sid with
  | none => (d, [])
  | some url =>
    let links := d.links.getD {}
    if links.documentation ≠ some url then
      ({d with links := some {links with documentation := some url}}, ["doc URL fixed"])
    else (d, [])

/-- The special-case stytch org-page repair (lines 101-105): unconditional. -/
def stytchRule (d : ServerRecord) (sid : String) : ServerRecord × List String :=
  if sid = "com.stytch-mcp" then
    let links := d.links.getD {}
    ({d with links := some {links with repository := some STYTCH_REPO}},
     ["repo URL: org page -> specific repo"])
  else (d, [])

/-- The package-argument repair (lines 108-110): unconditional for matching
ids.  `transport` was bound by `data.get('transport', {})` at the top of
`fix_definition`; if the key was absent, the fresh dict is mutated but the
record is not, while the fix message is still appended. -/
def packageRule (d : ServerRecord) (sid : String) : ServerRecord × List String :=
  match PACKAGE_FIXES.lookup sid with
  | none => (d, [])
  | some args =>
    (match d.transport with
     | some t => {d with transport := some {t with args := some args}}
     | none => d,
     ["fixed package name"])

/-- `fix_definition` (fix_branches.py lines 58-117), as the pure record
transformation: the rules in source order, producing the mutated record and
the ordered fix list.  File I/O is layered on separately (`fix_definition_fs`). -/
def fix_definition (d : ServerRecord) (sid : String) : Except String (ServerRecord × List String) :=
  (fixInputs (getInputs d)).map (fun p =>
    let d0 := setInputs d p.1
    let r1 := iconRule d0 sid
    let r2 := repoRule r1.1 sid
    let r3 := docRule r2.1 sid
    let r4 := stytchRule r3.1 sid
    let r5 := packageRule r4.1 sid
    (r5.1, p.2 ++ r1.2 ++ r2.2 ++ r3.2 ++ r4.2 ++ r5.2))

/-! ## Lemmas about the input-repair loop -/

/-- The repaired input list and fix list, element by element: each offending
input is coerced to `'text'` and contributes exactly one fix message. -/
theorem fixInputs_shape : ∀ {l l' : List InputRec} {fs : List String},
    fixInputs l = .ok (l', fs) →
    l' = l.map (fun i => if isValidTy i.ty then i else {i with ty := some "text"}) ∧
    fs = (l.filter (fun i => !isValidTy i.ty)).map (fun i => mkFixMsg i.ty (i.id.getD "")) := by
  intro l
  induction l with
  | nil =>
    intro l' fs h
    simp only [fixInputs, Except.ok.injEq, Prod.mk.injEq] at h
    simp [← h.1, ← h.2]
  | cons a t ih =>
    intro l' fs h
    simp only [fixInputs] at h
    by_cases hv : isValidTy a.ty
    · rw [if_pos hv] at h
      cases ht : fixInputs t with
      | error e => rw [ht] at h; exact absurd h (by simp)
      | ok q =>
        obtain ⟨q1, q2⟩ := q
        rw [ht] at h
        simp only [Except.ok.injEq, Prod.mk.injEq] at h
        obtain ⟨hq, hf⟩ := ih ht
        simp [← h.1, ← h.2, hq, hf, hv]
    · rw [if_neg hv] at h
      cases hid : a.id with
      | none => rw [hid] at h; exact absurd h (by simp)
      | some v =>
        rw [hid] at h
        cases ht : fixInputs t with
        | error e => rw [ht] at h; exact absurd h (by simp)
        | ok q =>
          obtain ⟨q1, q2⟩ := q
          rw [ht] at h
          simp only [Except.ok.injEq, Prod.mk.injEq] at h
          obtain ⟨hq, hf⟩ := ih ht
          simp [← h.1, ← h.2, hq, hf, hv, hid]

/-- Every input in the repaired list has a type inside the enumeration. -/
theorem fixInputs_ok_valid {l l' : List InputRec} {fs : List String}
    (h : fixInputs l = .ok (l', fs)) : ∀ i ∈ l', isValidTy i.ty = true := by
  intro i hi
  obtain ⟨hq, -⟩ := fixInputs_shape h
  subst hq
  obtain ⟨j, -, hj⟩ := List.mem_map.mp hi
  by_cases hv : isValidTy j.ty
  · rw [if_pos hv] at hj; rw [← hj]; exact hv
  · rw [if_neg hv] at hj; rw [← hj]; simp [isValidTy, VALID_INPUT_TYPES]

/-- On an all-valid input list the loop is a silent no-op. -/
theorem fixInputs_fixpoint : ∀ {l : List InputRec},
    (∀ i ∈ l, isValidTy i.ty = true) → fixInputs l = .ok (l, []) := by
  intro l
  induction l with
  | nil => intro _; rfl
  | cons a t ih =>
    intro hall
    have ha : isValidTy a.ty := hall a (by simp)
    have ht := ih (fun i hi => hall i (by simp [hi]))
    simp [fixInputs, ha, ht]

/-- If some offending input lacks an `id`, the loop raises `KeyError('id')`. -/
theorem fixInputs_error : ∀ {l : List InputRec},
    (∃ i ∈ l, isValidTy i.ty = false ∧ i.id = none) → fixInputs l = .error "'id'" := by
  intro l
  induction l with
  | nil => rintro ⟨i, hi, -⟩; simp at hi
  | cons a t ih =>
    rintro ⟨i, hi, hv, hid⟩
    rcases List.mem_cons.mp hi with rfl | hit
    · simp [fixInputs, hv, hid]
    · by_cases hva : isValidTy a.ty
      · simp [fixInputs, hva, ih ⟨i, hit, hv, hid⟩]
      · cases hida : a.id with
        | none => simp [fixInputs, hva, hida]
        | some v => simp [fixInputs, hva, hida, ih ⟨i, hit, hv, hid⟩]

/-! ## Case equations, frame and stability lemmas for the table-driven rules -/

theorem iconRule_none {sid : String} (h : ICON_FIXES.lookup sid = none) (d : ServerRecord) :
    iconRule d sid = (d, []) := by
  unfold iconRule; rw [h]

theorem iconRule_some {sid u} (h : ICON_FIXES.lookup sid = some u) (d : ServerRecord) :
    iconRule d sid =
      if d.icon.getD "" ≠ u then ({d with icon := some u}, ["icon updated"]) else (d, []) := by
  unfold iconRule; rw [h]

theorem repoRule_none {sid : String} (h : REPO_FIXES.lookup sid = none) (d : ServerRecord) :
    repoRule d sid = (d, []) := by
  unfold repoRule; rw [h]

theorem repoRule_some {sid u} (h : REPO_FIXES.lookup sid = some u) (d : ServerRecord) :
    repoRule d sid =
      if (d.links.getD {}).repository ≠ some u then
        ({d with links := some {d.links.getD {} with repository := some u}}, ["repo URL fixed"])
      else (d, []) := by
  unfold repoRule; rw [h]

theorem docRule_none {sid : String} (h : DOC_FIXES.lookup sid = none) (d : ServerRecord) :
    docRule d sid = (d, []) := by
  unfold docRule; rw [h]

theorem docRule_some {sid u} (h : DOC_FIXES.lookup sid = some u) (d : ServerRecord) :
    docRule d sid =
      if (d.links.getD {}).documentation ≠ some u then
        ({d with links := some {d.links.getD {} with documentation := some u}}, ["doc URL fixed"])
      else (d, []) := by
  unfold docRule; rw [h]

theorem packageRule_none {sid : String} (h : PACKAGE_FIXES.lookup sid = none) (d : ServerRecord) :
    packageRule d sid = (d, []) := by
  unfold packageRule; rw [h]

theorem packageRule_some {sid a} (h : PACKAGE_FIXES.lookup sid = some a) (d : ServerRecord) :
    packageRule d sid =
      (match d.transport with
       | some t => {d with transport := some {t with args := some a}}
       | none => d,
       ["fixed package name"]) := by
  unfold packageRule; rw [h]

theorem stytchRule_ne (d : ServerRecord) {sid : String} (h : sid ≠ "com.stytch-mcp") :
    stytchRule d sid = (d, []) := by
  unfold stytchRule; rw [if_neg h]

theorem stytchRule_eq (d : ServerRecord) :
    stytchRule d "com.stytch-mcp" =
      ({d with links := some {d.links.getD {} with repository := some STYTCH_REPO}},
       ["repo URL: org page -> specific repo"]) := by
  unfold stytchRule; rw [if_pos rfl]

theorem iconRule_fst_links (d : ServerRecord) (sid : String) :
    (iconRule d sid).1.links = d.links := by
  cases hL : ICON_FIXES.lookup sid with
  | none => rw [iconRule_none hL]
  | some u => rw [iconRule_some hL]; split <;> rfl

theorem iconRule_fst_transport (d : ServerRecord) (sid : String) :
    (iconRule d sid).1.transport = d.transport := by
  cases hL : ICON_FIXES.lookup sid with
  | none => rw [iconRule_none hL]
  | some u => rw [iconRule_some hL]; split <;> rfl

theorem repoRule_fst_icon (d : ServerRecord) (sid : String) :
    (repoRule d sid).1.icon = d.icon := by
  cases hL : REPO_FIXES.lookup sid with
  | none => rw [repoRule_none hL]
  | some u => rw [repoRule_some hL]; split <;> rfl

theorem repoRule_fst_transport (d : ServerRecord) (sid : String) :
    (repoRule d sid).1.transport = d.transport := by
  cases hL : REPO_FIXES.lookup sid with
  | none => rw [repoRule_none hL]
  | some u => rw [repoRule_some hL]; split <;> rfl

theorem docRule_fst_icon (d : ServerRecord) (sid : String) :
    (docRule d sid).1.icon = d.icon := by
  cases hL : DOC_FIXES.lookup sid with
  | none => rw [docRule_none hL]
  | some u => rw [docRule_some hL]; split <;> rfl

theorem docRule_fst_transport (d : ServerRecord) (sid : String) :
    (docRule d sid).1.transport = d.transport := by
  cases hL : DOC_FIXES.lookup sid with
  | none => rw [docRule_none hL]
  | some u => rw [docRule_some hL]; split <;> rfl

theorem docRule_fst_repository (d : ServerRecord) (sid : String) :
    ((docRule d sid).1.links.getD {}).repository = (d.links.getD {}).repository := by
  cases hL : DOC_FIXES.lookup sid with
  | none => rw [docRule_none hL]
  | some u => rw [docRule_some hL]; split <;> rfl

theorem stytchRule_fst_icon (d : ServerRecord) (sid : String) :
    (stytchRule d sid).1.icon = d.icon := by
  unfold stytchRule; split <;> rfl

theorem stytchRule_fst_transport (d : ServerRecord) (sid : String) :
    (stytchRule d sid).1.transport = d.transport := by
  unfold stytchRule; split <;> rfl

theorem stytchRule_fst_documentation (d : ServerRecord) (sid : String) :
    ((stytchRule d sid).1.links.getD {}).documentation = (d.links.getD {}).documentation := by
  unfold stytchRule; split <;> rfl

theorem packageRule_fst_icon (d : ServerRecord) (sid : String) :
    (packageRule d sid).1.icon = d.icon := by
  cases hL : PACKAGE_FIXES.lookup sid with
  | none => rw [packageRule_none hL]
  | some a => rw [packageRule_some hL]; cases d.transport <;> rfl

theorem packageRule_fst_links (d : ServerRecord) (sid : String) :
    (packageRule d sid).1.links = d.links := by
  cases hL : PACKAGE_FIXES.lookup sid with
  | none => rw [packageRule_none hL]
  | some a => rw [packageRule_some hL]; cases d.transport <;> rfl

/-- Any rule that leaves `transport` unchanged leaves the inputs unchanged. -/
theorem getInputs_congr {d d2 : ServerRecord} (h : d2.transport = d.transport) :
    getInputs d2 = getInputs d := by
  unfold getInputs; rw [h]

theorem packageRule_fst_getInputs (d : ServerRecord) (sid : String) :
    getInputs (packageRule d sid).1 = getInputs d := by
  cases hL : PACKAGE_FIXES.lookup sid with
  | none => rw [packageRule_none hL]
  | some a =>
    rw [packageRule_some hL]
    cases htr : d.transport with
    | none => rfl
    | some t => simp [getInputs, htr]

/-- A second application of the icon rule is a silent no-op on any record
whose icon agrees with the first application's output. -/
theorem iconRule_stable (d : ServerRecord) (sid : String) (d2 : ServerRecord)
    (h2 : d2.icon = (iconRule d sid).1.icon) : iconRule d2 sid = (d2, []) := by
  cases hL : ICON_FIXES.lookup sid with
  | none => exact iconRule_none hL d2
  | some u =>
    rw [iconRule_some hL] at h2
    rw [iconRule_some hL d2]
    have hval : d2.icon.getD "" = u := by
      by_cases hc : d.icon.getD "" ≠ u
      · rw [if_pos hc] at h2; rw [h2]; rfl
      · rw [if_neg hc] at h2; rw [h2]
        exact not_not.mp hc
    rw [if_neg (by simp [hval])]

theorem repoRule_stable (d : ServerRecord) (sid : String) (d2 : ServerRecord)
    (h2 : (d2.links.getD {}).repository = ((repoRule d sid).1.links.getD {}).repository) :
    repoRule d2 sid = (d2, []) := by
  cases hL : REPO_FIXES.lookup sid with
  | none => exact repoRule_none hL d2
  | some u =>
    rw [repoRule_some hL] at h2
    rw [repoRule_some hL d2]
    have hval : (d2.links.getD {}).repository = some u := by
      by_cases hc : (d.links.getD {}).repository ≠ some u
      · rw [if_pos hc] at h2; rw [h2]; rfl
      · rw [if_neg hc] at h2; rw [h2]
        exact not_not.mp hc
    rw [if_neg (by simp [hval])]

theorem docRule_stable (d : ServerRecord) (sid : String) (d2 : ServerRecord)
    (h2 : (d2.links.getD {}).documentation = ((docRule d sid).1.links.getD {}).documentation) :
    docRule d2 sid = (d2, []) := by
  cases hL : DOC_FIXES.lookup sid with
  | none => exact docRule_none hL d2
  | some u =>
    rw [docRule_some hL] at h2
    rw [docRule_some hL d2]
    have hval : (d2.links.getD {}).documentation = some u := by
      by_cases hc : (d.links.getD {}).documentation ≠ some u
      · rw [if_pos hc] at h2; rw [h2]; rfl
      · rw [if_neg hc] at h2; rw [h2]
        exact not_not.mp hc
    rw [if_neg (by simp [hval])]

/-- The stytch rule fires again on its own output, but leaves it unchanged. -/
theorem stytchRule_stable (d : ServerRecord) (d2 : ServerRecord)
    (h2 : d2.links = (stytchRule d "com.stytch-mcp").1.links) :
    stytchRule d2 "com.stytch-mcp" = (d2, ["repo URL: org page -> specific repo"]) := by
  rw [stytchRule_eq] at h2
  rw [stytchRule_eq d2]
  obtain ⟨di, dn, dic, dlk, dtr, dex⟩ := d2
  simp only at h2
  subst h2
  rfl

/-- The package rule fires again on its own output, but leaves it unchanged. -/
theorem packageRule_stable (d : ServerRecord) (sid : String) :
    packageRule (packageRule d sid).1 sid = ((packageRule d sid).1, (packageRule d sid).2) := by
  cases hL : PACKAGE_FIXES.lookup sid with
  | none =>
    have h1 := packageRule_none hL d
    rw [h1]
    exact packageRule_none hL d
  | some a =>
    have h1 := packageRule_some hL d
    cases htr : d.transport with
    | none =>
      rw [htr] at h1
      rw [h1, packageRule_some hL d, htr]
    | some t =>
      rw [htr] at h1
      rw [h1, packageRule_some hL]

/-- Rewriting the inputs read from the record back into it is the identity. -/
theorem setInputs_getInputs (d : ServerRecord) : setInputs d (getInputs d) = d := by
  obtain ⟨di, dn, dic, dlk, dtr, dex⟩ := d
  cases dtr with
  | none => rfl
  | some t =>
    obtain ⟨tt, tc, ta, tm, tex⟩ := t
    cases tm with
    | none => rfl
    | some m =>
      obtain ⟨mi, mex⟩ := m
      cases mi with
      | none => rfl
      | some l => rfl

/-- After a successful repair pass, the record's inputs are the repaired list. -/
theorem getInputs_setInputs {d : ServerRecord} {l : List InputRec} {fs : List String}
    (h : fixInputs (getInputs d) = .ok (l, fs)) : getInputs (setInputs d l) = l := by
  obtain ⟨di, dn, dic, dlk, dtr, dex⟩ := d
  cases dtr with
  | none =>
    simp only [getInputs, setInputs, Option.getD] at h ⊢
    simp [fixInputs] at h
    simp [h.1]
  | some t =>
    obtain ⟨tt, tc, ta, tm, tex⟩ := t
    cases tm with
    | none =>
      simp only [getInputs, setInputs, Option.getD] at h ⊢
      simp [fixInputs] at h
      simp [h.1]
    | some m =>
      obtain ⟨mi, mex⟩ := m
      cases mi with
      | none =>
        simp only [getInputs, setInputs, Option.getD] at h ⊢
        simp [fixInputs] at h
        simp [h.1]
      | some l0 => rfl

theorem packageRule_snd (d : ServerRecord) (sid : String) :
    (packageRule d sid).2 =
      if (PACKAGE_FIXES.lookup sid).isSome then ["fixed package name"] else [] := by
  cases hL : PACKAGE_FIXES.lookup sid with
  | none => simp [packageRule_none hL, hL]
  | some a => simp [packageRule_some hL, hL]

/-- Second-run behavior of the whole Fix Engine: the record is unchanged, the
input/icon/repo/doc rules are silent, and only the two unconditional rules
(the stytch org-page repair and the package repair) report fixes again. -/
theorem fix_definition_second_run {d : ServerRecord} {sid : String} {d1 : ServerRecord}
    {fx1 : List String} (h : fix_definition d sid = .ok (d1, fx1)) :
    fix_definition d1 sid = .ok (d1,
      (if sid = "com.stytch-mcp" then ["repo URL: org page -> specific repo"] else []) ++
      (if (PACKAGE_FIXES.lookup sid).isSome then ["fixed package name"] else [])) := by
  unfold fix_definition at h ⊢
  cases hfi : fixInputs (getInputs d) with
  | error e => rw [hfi] at h; exact absurd h (by simp [Except.map])
  | ok p =>
    rw [hfi] at h
    obtain ⟨ni, f0⟩ := p
    simp only [Except.map, Except.ok.injEq, Prod.mk.injEq] at h
    obtain ⟨hd1, hfx⟩ := h
    have hIn1 : getInputs d1 = ni := by
      rw [← hd1, packageRule_fst_getInputs,
        getInputs_congr (stytchRule_fst_transport _ _),
        getInputs_congr (docRule_fst_transport _ _),
        getInputs_congr (repoRule_fst_transport _ _),
        getInputs_congr (iconRule_fst_transport _ _)]
      exact getInputs_setInputs hfi
    have hfi2 : fixInputs (getInputs d1) = .ok (ni, []) := by
      rw [hIn1]; exact fixInputs_fixpoint (fixInputs_ok_valid hfi)
    have hset : setInputs d1 ni = d1 := by
      rw [← hIn1]; exact setInputs_getInputs d1
    have hicon2 : iconRule d1 sid = (d1, []) := by
      refine iconRule_stable (setInputs d ni) sid d1 ?_
      rw [← hd1, packageRule_fst_icon, stytchRule_fst_icon, docRule_fst_icon, repoRule_fst_icon]
    rw [hfi2]
    simp only [Except.map, Except.ok.injEq]
    rw [hset, hicon2]
    by_cases hsty : sid = "com.stytch-mcp"
    · subst hsty
      have hLr : REPO_FIXES.lookup "com.stytch-mcp" = none := by decide
      have hLd : DOC_FIXES.lookup "com.stytch-mcp" = none := by decide
      have hLp : PACKAGE_FIXES.lookup "com.stytch-mcp" = none := by decide
      have hrepo2 := repoRule_none hLr d1
      have hdoc2 := docRule_none hLd d1
      have hsty2 : stytchRule d1 "com.stytch-mcp" =
          (d1, ["repo URL: org page -> specific repo"]) := by
        refine stytchRule_stable (docRule (repoRule (iconRule (setInputs d ni)
          "com.stytch-mcp").1 "com.stytch-mcp").1 "com.stytch-mcp").1 d1 ?_
        rw [← hd1, packageRule_fst_links]
      have hpkg2 := packageRule_none hLp d1
      simp [hrepo2, hdoc2, hsty2, hpkg2, hLp]
    · have hsty4 : stytchRule (docRule (repoRule (iconRule (setInputs d ni) sid).1 sid).1 sid).1
          sid = ((docRule (repoRule (iconRule (setInputs d ni) sid).1 sid).1 sid).1, []) :=
        stytchRule_ne _ hsty
      have hrepo2 : repoRule d1 sid = (d1, []) := by
        refine repoRule_stable (iconRule (setInputs d ni) sid).1 sid d1 ?_
        rw [← hd1, packageRule_fst_links, hsty4]
        exact docRule_fst_repository _ _
      have hdoc2 : docRule d1 sid = (d1, []) := by
        refine docRule_stable (repoRule (iconRule (setInputs d ni) sid).1 sid).1 sid d1 ?_
        rw [← hd1, packageRule_fst_links]
        exact stytchRule_fst_documentation _ _
      have hsty2 : stytchRule d1 sid = (d1, []) := stytchRule_ne d1 hsty
      have hpkg2 := packageRule_stable
        (stytchRule (docRule (repoRule (iconRule (setInputs d ni) sid).1 sid).1 sid).1 sid).1 sid
      rw [hd1] at hpkg2
      simp [hrepo2, hdoc2, hsty2, hpkg2, hsty, packageRule_snd]

/-! ## File-system layer of the Fix Engine -/

/-- Pointwise update of the record store. -/
def fsUpdate (fs : String → Option ServerRecord) (p : String) (v : Option ServerRecord) :
    String → Option ServerRecord := fun q => if q = p then v else fs q

/-- `fix_definition` including its file I/O (lines 60-61 and 112-115): load
the record at `filepath`, transform it, and write the file back only when the
fix list is non-empty.  The middle component is the write log: each performed
file write, in order. -/
def fix_definition_fs (fs : String → Option ServerRecord) (filepath sid : String) :
    Except String ((String → Option ServerRecord) × List (String × ServerRecord) × List String) :=
  match fs filepath with
  | none => .error "file not found"
  | some d =>
    match fix_definition d sid with
    | .error e => .error e
    | .ok p =>
      if p.2.isEmpty then .ok (fs, [], p.2)
      else .ok (fsUpdate fs filepath (some p.1), [(filepath, p.1)], p.2)

/-! ## The per-file loop of process_branch (fix_branches.py lines 153-165) -/

/-- Processing of one changed file: skipped unless it exists and ends in
`.json`; a parse failure or an exception escaping `fix_definition` is caught
and recorded as a single `PARSE_ERROR` entry for that file; otherwise each fix
becomes one `(file, fix)` entry.  `fc` maps a path to `none` (file absent) or
to its parse outcome. -/
def fileEntries (fc : String → Option (Except String ServerRecord)) (f : String) :
    List (String × String) :=
  if pyEndsWith f ".json" then
    match fc f with
    | none => []
    | some (.error e) => [(f, "PARSE_ERROR: " ++ e)]
    | some (.ok d) =>
      match fix_definition d (d.id.getD "") with
      | .error e => [(f, "PARSE_ERROR: " ++ e)]
      | .ok p => p.2.map (fun fx => (f, fx))
  else []

/-- The `all_fixes` accumulator over the changed files, in order. -/
def processFilesEnv (fc : String → Option (Except String ServerRecord))
    (files : List String) : List (String × String) :=
  (files.map (fileEntries fc)).flatten

/-- Whether the per-file loop wrote any file back (some file produced fixes). -/
def fileWrote (fc : String → Option (Except String ServerRecord)) (f : String) : Bool :=
  pyEndsWith f ".json" &&
    match fc f with
    | some (.ok d) =>
      match fix_definition d (d.id.getD "") with
      | .ok p => !p.2.isEmpty
      | .error _ => false
    | _ => false

/-! ## Concrete records used as counterexamples and witnesses -/

/-- The record produced by a first Fix Engine pass on an empty stytch record. -/
def stytchFixed : ServerRecord :=
  { links := some { repository := some "https://github.com/stytchauth/stytch-mcp" } }

def dirInput : InputRec := { id := some "path", ty := some "dir" }

def dirMetadata : MetadataRec := { inputs := some [dirInput] }

def dirTransport : TransportRec :=
  { ttype := some "stdio", command := some "npx", metadata := some dirMetadata }

/-- A record with one input whose declared type `dir` is outside the
enumeration. -/
def dirRecord : ServerRecord := { id := some "community.foo", transport := some dirTransport }

def textInput : InputRec := { id := some "path", ty := some "text" }

def textMetadata : MetadataRec := { inputs := some [textInput] }

def textTransport : TransportRec :=
  { ttype := some "stdio", command := some "npx", metadata := some textMetadata }

/-- `dirRecord` after its input type has been repaired. -/
def dirRecordFixed : ServerRecord :=
  { id := some "community.foo", transport := some textTransport }

def noIdInput : InputRec := { ty := some "dir" }

def noIdMetadata : MetadataRec := { inputs := some [noIdInput] }

def noIdTransport : TransportRec :=
  { ttype := some "stdio", command := some "npx", metadata := some noIdMetadata }

/-- A record with an invalid-typed input that lacks an `id` field. -/
def noIdRecord : ServerRecord := { id := some "community.bar", transport := some noIdTransport }

/-! ## Claim C1 -/

/-- C1 counterexample: on a record whose id is the stytch special case, the
first Fix Engine pass produces `stytchFixed`, and a second pass on
`stytchFixed` leaves the record unchanged but reports the org-page fix again —
the second-pass fix list is not empty, contradicting the claim. -/
theorem c1_counterexample :
    fix_definition ({} : ServerRecord) "com.stytch-mcp" =
      .ok (stytchFixed, ["repo URL: org page -> specific repo"]) ∧
    fix_definition stytchFixed "com.stytch-mcp" =
      .ok (stytchFixed, ["repo URL: org page -> specific repo"]) ∧
    (["repo URL: org page -> specific repo"] : List String) ≠ [] := by
  refine ⟨by rfl, by rfl, by simp⟩

/-- C1 (amended): a second Fix Engine run on the record produced by a first
run leaves the record unchanged, and its fix list is empty exactly when the
record's id is neither the hardcoded stytch org-page special case nor a key of
the package-fix table; for those two ids the unconditional rules fire again
(re-reporting their fixes) while still leaving the record unchanged. -/
theorem c1_fix_engine_second_pass (d : ServerRecord) (sid : String) (d1 : ServerRecord)
    (fx1 : List String) (h : fix_definition d sid = .ok (d1, fx1)) :
    ∃ fx2, fix_definition d1 sid = .ok (d1, fx2) ∧
      (fx2 = [] ↔ (sid ≠ "com.stytch-mcp" ∧ PACKAGE_FIXES.lookup sid = none)) := by
  refine ⟨_, fix_definition_second_run h, ?_⟩
  by_cases hs : sid = "com.stytch-mcp"
  · simp [hs]
  · cases hp : PACKAGE_FIXES.lookup sid with
    | none => simp [hs, hp]
    | some a => simp [hs, hp]

theorem c1_fix_engine_second_pass_witness :
    ∃ fx2, fix_definition ({} : ServerRecord) "s" = .ok ({}, fx2) ∧
      (fx2 = [] ↔ ("s" ≠ "com.stytch-mcp" ∧ PACKAGE_FIXES.lookup "s" = none)) :=
  c1_fix_engine_second_pass {} "s" {} [] (by rfl)

/-! ## Claim C7 -/

/-- C7: on every record the Fix Engine successfully processes, each input
whose declared type is outside `VALID_INPUT_TYPES` is rewritten to `text`
(leaving valid inputs untouched), the fix list starts with exactly one entry
per offending input in order, formatted
`input type '<old>' -> 'text' for <input id>`, and afterwards every input's
type is a member of the enumeration. -/
theorem c7_input_type_repair (d : ServerRecord) (sid : String) (d1 : ServerRecord)
    (fx : List String) (h : fix_definition d sid = .ok (d1, fx)) :
    (∀ i ∈ getInputs d1, ∃ t, i.ty = some t ∧ t ∈ VALID_INPUT_TYPES) ∧
    getInputs d1 = (getInputs d).map
      (fun i => if isValidTy i.ty then i else {i with ty := some "text"}) ∧
    ∃ rest, fx = ((getInputs d).filter (fun i => !isValidTy i.ty)).map
      (fun i => mkFixMsg i.ty (i.id.getD "")) ++ rest := by
  unfold fix_definition at h
  cases hfi : fixInputs (getInputs d) with
  | error e => rw [hfi] at h; exact absurd h (by simp [Except.map])
  | ok p =>
    rw [hfi] at h
    obtain ⟨ni, f0⟩ := p
    simp only [Except.map, Except.ok.injEq, Prod.mk.injEq] at h
    obtain ⟨hd1, hfx⟩ := h
    have hIn1 : getInputs d1 = ni := by
      rw [← hd1, packageRule_fst_getInputs,
        getInputs_congr (stytchRule_fst_transport _ _),
        getInputs_congr (docRule_fst_transport _ _),
        getInputs_congr (repoRule_fst_transport _ _),
        getInputs_congr (iconRule_fst_transport _ _)]
      exact getInputs_setInputs hfi
    obtain ⟨hshape, hmsgs⟩ := fixInputs_shape hfi
    refine ⟨?_, ?_, ?_⟩
    · intro i hi
      have hv := fixInputs_ok_valid hfi i (by rw [← hIn1]; exact hi)
      cases hty : i.ty with
      | none => rw [hty] at hv; exact absurd hv (by simp [isValidTy])
      | some t =>
        refine ⟨t, rfl, ?_⟩
        rw [hty] at hv
        simpa [isValidTy] using hv
    · rw [hIn1, hshape]
    · refine ⟨(iconRule (setInputs d ni) sid).2 ++
        ((repoRule (iconRule (setInputs d ni) sid).1 sid).2 ++
        ((docRule (repoRule (iconRule (setInputs d ni) sid).1 sid).1 sid).2 ++
        ((stytchRule (docRule (repoRule (iconRule (setInputs d ni) sid).1 sid).1 sid).1 sid).2 ++
        (packageRule (stytchRule (docRule (repoRule (iconRule (setInputs d ni) sid).1 sid).1
          sid).1 sid).1 sid).2))), ?_⟩
      rw [← hmsgs, ← hfx]
      simp [List.append_assoc]

theorem c7_input_type_repair_witness :
    (∀ i ∈ getInputs dirRecordFixed, ∃ t, i.ty = some t ∧ t ∈ VALID_INPUT_TYPES) ∧
    getInputs dirRecordFixed = (getInputs dirRecord).map
      (fun i => if isValidTy i.ty then i else {i with ty := some "text"}) ∧
    ∃ rest, ["input type 'dir' -> 'text' for path"] =
      ((getInputs dirRecord).filter (fun i => !isValidTy i.ty)).map
        (fun i => mkFixMsg i.ty (i.id.getD "")) ++ rest :=
  c7_input_type_repair dirRecord "community.foo" dirRecordFixed
    ["input type 'dir' -> 'text' for path"] (by rfl)

/-! ## Claim C8 -/

/-- C8: the Fix Engine writes the record file back if and only if its fix
list is non-empty; when no rule fires, the record store is untouched. -/
theorem c8_write_iff_fixes (fs : String → Option ServerRecord) (filepath sid : String)
    (fs' : String → Option ServerRecord) (writes : List (String × ServerRecord))
    (fixes : List String)
    (h : fix_definition_fs fs filepath sid = .ok (fs', writes, fixes)) :
    (writes ≠ [] ↔ fixes ≠ []) ∧ (fixes = [] → fs' = fs) := by
  unfold fix_definition_fs at h
  cases hf : fs filepath with
  | none => simp only [hf] at h; exact absurd h (by simp)
  | some d =>
    simp only [hf] at h
    cases hfd : fix_definition d sid with
    | error e => simp only [hfd] at h; exact absurd h (by simp)
    | ok p =>
      simp only [hfd] at h
      by_cases he : p.2.isEmpty
      · rw [if_pos he] at h
        simp only [Except.ok.injEq, Prod.mk.injEq] at h
        obtain ⟨h1, h2, h3⟩ := h
        subst h1; subst h2; subst h3
        constructor
        · simp [List.isEmpty_iff.mp he]
        · intro _; rfl
      · rw [if_neg he] at h
        simp only [Except.ok.injEq, Prod.mk.injEq] at h
        obtain ⟨h1, h2, h3⟩ := h
        subst h1; subst h2; subst h3
        constructor
        · simp only [ne_eq, List.isEmpty_iff] at he ⊢
          simp [he]
        · intro hc
          exact absurd hc (by simpa [List.isEmpty_iff] using he)

/-- A one-file record store holding `dirRecord`. -/
def dirStore : String → Option ServerRecord :=
  fun q => if q = "servers/community.foo.json" then some dirRecord else none

theorem c8_write_iff_fixes_witness :
    (([("servers/community.foo.json", dirRecordFixed)] : List (String × ServerRecord)) ≠ [] ↔
      (["input type 'dir' -> 'text' for path"] : List String) ≠ []) ∧
    ((["input type 'dir' -> 'text' for path"] : List String) = [] →
      fsUpdate dirStore "servers/community.foo.json" (some dirRecordFixed) = dirStore) :=
  c8_write_iff_fixes dirStore "servers/community.foo.json" "community.foo"
    (fsUpdate dirStore "servers/community.foo.json" (some dirRecordFixed))
    [("servers/community.foo.json", dirRecordFixed)]
    ["input type 'dir' -> 'text' for path"] (by rfl)

/-! ## Claim C10 -/

/-- C10: a record containing an out-of-enumeration input that lacks an `id`
makes `fix_definition` raise `KeyError('id')` (for any declared identifier);
the per-file loop of the orchestrator catches it, records one
`PARSE_ERROR: 'id'` entry for that file, and continues with the remaining
files of the branch. -/
theorem c10_keyerror_per_file (rec : ServerRecord) (sid n : String)
    (pre post : List String) (fc : String → Option (Except String ServerRecord))
    (hin : ∃ i ∈ getInputs rec, isValidTy i.ty = false ∧ i.id = none)
    (hfc : fc n = some (.ok rec)) (hjson : pyEndsWith n ".json" = true) :
    fix_definition rec sid = .error "'id'" ∧
    processFilesEnv fc (pre ++ n :: post) =
      processFilesEnv fc pre ++ [(n, "PARSE_ERROR: 'id'")] ++ processFilesEnv fc post := by
  have herr : ∀ s, fix_definition rec s = .error "'id'" := by
    intro s
    unfold fix_definition
    rw [fixInputs_error hin]
    rfl
  refine ⟨herr sid, ?_⟩
  have hone : fileEntries fc n = [(n, "PARSE_ERROR: 'id'")] := by
    unfold fileEntries
    simp only [hjson, hfc, herr, if_true]
    rfl
  simp [processFilesEnv, hone]

/-- A two-file parse oracle: the offending record plus a healthy record. -/
def twoFileOracle : String → Option (Except String ServerRecord) :=
  fun q =>
    if q = "servers/community.bar.json" then some (.ok noIdRecord)
    else if q = "servers/community.foo.json" then some (.ok dirRecord)
    else none

theorem c10_keyerror_per_file_witness :
    fix_definition noIdRecord "community.bar" = .error "'id'" ∧
    processFilesEnv twoFileOracle
        (["servers/x.txt"] ++ "servers/community.bar.json" :: ["servers/community.foo.json"]) =
      processFilesEnv twoFileOracle ["servers/x.txt"] ++
        [("servers/community.bar.json", "PARSE_ERROR: 'id'")] ++
        processFilesEnv twoFileOracle ["servers/community.foo.json"] :=
  c10_keyerror_per_file noIdRecord "community.bar" "servers/community.bar.json"
    ["servers/x.txt"] ["servers/community.foo.json"] twoFileOracle
    ⟨noIdInput, by decide, by rfl, rfl⟩ (by rfl) (by rfl)

/-! ## rename_files.py: transport-suffix canonicalization -/

/-- Files exempt from renaming (HTTP-only, or already correctly suffixed). -/
def HTTP_ONLY_FILES : List String :=
  ["com.asana-mcp.json",
   "com.clerk-mcp.json",
   "com.cloudflare-observability.json",
   "com.figma-mcp.json",
   "com.honeycomb-mcp.json",
   "io.intercom-mcp.json",
   "io.sanity-mcp.json",
   "com.stytch-mcp.json",
   "com.vercel-mcp.json",
   "town.val-mcp.json",
   "com.apify-mcp-http.json",
   "com.linear-mcp-http.json",
   "com.square-mcp-http.json",
   "com.vercel-mcp-http.json",
   "com.mongodb-mcp-npx.json",
   "com.mongodb-mcp-docker.json"]

/-- `SPECIAL_TOOLS` is declared in the source but never consulted:
`get_tool_suffix` hardcodes the snyk case instead. -/
def SPECIAL_TOOLS : List (String × String) := [("com.snyk-mcp.json", "cli")]

/-- The suffixes the rename loop recognizes as already present. -/
def KNOWN_SUFFIXES : List String := ["-npx", "-uvx", "-docker", "-http", "-cli"]

/-- `get_tool_suffix` (rename_files.py lines 36-45).  Note the fallthrough
`return cmd if cmd else None`: any non-empty unrecognized command is itself
returned as the suffix. -/
def get_tool_suffix (t : TransportRec) : Option String :=
  if t.ttype = some "http" then some "http"
  else
    let cmd := t.command.getD ""
    if cmd = "npx" ∨ cmd = "uvx" ∨ cmd = "docker" then some cmd
    else if cmd = "snyk" then some "cli"
    else if cmd ≠ "" then some cmd
    else none

inductive RenameRes where
  | skipHttpOnly
  | skipSuffix
  | skipParse
  | skipUnknown
  | skipHttpPaired
  | keyError
  | mvFailed (newPath : String)
  | renamed (oldBase newBase newId : String)
  deriving Repr, DecidableEq

/-- One per-file step of the rename loop: the outcome, the file write (done
before the move), and the successful move, if any. -/
structure RenameStep where
  result : RenameRes
  wrote : Option (String × ServerRecord)
  moved : Option (String × String)
  deriving Repr, DecidableEq

/-- The per-file body of `main` in rename_files.py (lines 84-149): skip
exempt or already-suffixed or unparseable files, derive the suffix, update
`id` and `name`, write the file in place, then `git mv`; a failed move is
logged and the loop continues (the in-place write is not undone).
`content` is the parse outcome of the file, `mvOk` whether `git mv` succeeds.
A missing `id` at line 118 would raise an uncaught KeyError (`keyError`). -/
def processRenameFile (f : String) (content : Except Unit ServerRecord) (mvOk : Bool) :
    RenameStep :=
  let basename := pyBasename f
  if HTTP_ONLY_FILES.contains basename then ⟨.skipHttpOnly, none, none⟩
  else
    let name_no_ext := pyReplace basename ".json" ""
    if KNOWN_SUFFIXES.any (fun s => pyEndsWith name_no_ext s) then ⟨.skipSuffix, none, none⟩
    else
      match content with
      | .error _ => ⟨.skipParse, none, none⟩
      | .ok defn =>
        match get_tool_suffix (defn.transport.getD {}) with
        | none => ⟨.skipUnknown, none, none⟩
        | some suffix =>
          if suffix = "" then ⟨.skipUnknown, none, none⟩
          else if suffix = "http" ∧ HTTP_ONLY_FILES.contains basename = false then
            ⟨.skipHttpPaired, none, none⟩
          else
            match defn.id with
            | none => ⟨.keyError, none, none⟩
            | some oldId =>
              let new_basename := name_no_ext ++ "-" ++ suffix ++ ".json"
              let new_path := "servers/" ++ new_basename
              let new_id := oldId ++ "-" ++ suffix
              let old_name := defn.name.getD ""
              let new_name :=
                if suffix = "npx" then old_name ++ " (npx)"
                else if suffix = "uvx" then old_name ++ " (uvx)"
                else if suffix = "docker" then old_name ++ " (Docker)"
                else if suffix = "cli" then old_name ++ " (CLI)"
                else old_name
              let defn2 := {defn with id := some new_id, name := some new_name}
              if mvOk then
                ⟨.renamed basename new_basename new_id, some (f, defn2), some (f, new_path)⟩
              else ⟨.mvFailed new_path, some (f, defn2), none⟩

/-- The effect of one rename step on the on-disk record store: the in-place
write happens first, then (when the move succeeded) the content moves from
the old path to the new one. -/
def applyRenameStep (fs : String → Option ServerRecord) (st : RenameStep) :
    String → Option ServerRecord :=
  let fs1 := match st.wrote with
    | none => fs
    | some (p, d) => fsUpdate fs p (some d)
  match st.moved with
  | none => fs1
  | some (old, new) => fsUpdate (fsUpdate fs1 new (fs1 old)) old none

/-! ## Concrete rename inputs -/

def npxTransport : TransportRec := { ttype := some "stdio", command := some "npx" }

/-- A fresh stdio record launched by npx, at `servers/community.foo.json`. -/
def npxRecord : ServerRecord :=
  { id := some "community.foo", name := some "Foo", transport := some npxTransport }

/-- `npxRecord` after `id` and `name` were rewritten for the `-npx` suffix. -/
def npxRecordRenamed : ServerRecord :=
  { id := some "community.foo-npx", name := some "Foo (npx)", transport := some npxTransport }

/-- A one-file store holding `npxRecord`. -/
def fooStore : String → Option ServerRecord :=
  fun q => if q = "servers/community.foo.json" then some npxRecord else none

def nodeTransport : TransportRec := { ttype := some "stdio", command := some "node" }

/-- A stdio record whose launcher command `node` is not a known runner. -/
def nodeRecord : ServerRecord :=
  { id := some "community.foo", name := some "Foo", transport := some nodeTransport }

/-- The record as rewritten in place by the rename loop (lines 134-140):
new suffixed id, and the parenthetical tool annotation on the name. -/
def renamedDefn (defn : ServerRecord) (oldId s : String) : ServerRecord :=
  { defn with
    id := some (oldId ++ "-" ++ s),
    name := some (if s = "npx" then defn.name.getD "" ++ " (npx)"
      else if s = "uvx" then defn.name.getD "" ++ " (uvx)"
      else if s = "docker" then defn.name.getD "" ++ " (Docker)"
      else if s = "cli" then defn.name.getD "" ++ " (CLI)"
      else defn.name.getD "") }

/-! ## Claim C2 -/

/-- C2 counterexample: when `git mv` fails after the in-place write, the old
filename `servers/community.foo.json` remains persisted and holds the record
with the new suffixed id — the rename is not all-or-nothing. -/
theorem c2_counterexample :
    applyRenameStep fooStore
        (processRenameFile "servers/community.foo.json" (.ok npxRecord) false)
        "servers/community.foo.json" = some npxRecordRenamed ∧
    npxRecordRenamed.id = some "community.foo-npx" ∧
    npxRecord.id = some "community.foo" ∧
    (processRenameFile "servers/community.foo.json" (.ok npxRecord) false).moved = none :=
  ⟨rfl, rfl, rfl, rfl⟩

/-- C2 (amended): the rename is not atomic.  The updated record (new id, new
name) is written to the old filename before the move; if the move then fails,
the old filename remains persisted and contains the new id, while no other
path — in particular the new filename — is touched, so the new filename with
the old id is never created. -/
theorem c2_rename_not_atomic (f : String) (defn : ServerRecord) (oldId : String)
    (fs : String → Option ServerRecord) (s : String)
    (h1 : HTTP_ONLY_FILES.contains (pyBasename f) = false)
    (h2 : KNOWN_SUFFIXES.any (fun x => pyEndsWith (pyReplace (pyBasename f) ".json" "") x)
      = false)
    (h3 : get_tool_suffix (defn.transport.getD {}) = some s)
    (h4 : s ≠ "http") (h5 : s ≠ "")
    (h6 : defn.id = some oldId) :
    (processRenameFile f (.ok defn) false).moved = none ∧
    (processRenameFile f (.ok defn) false).wrote = some (f, renamedDefn defn oldId s) ∧
    (renamedDefn defn oldId s).id = some (oldId ++ "-" ++ s) ∧
    applyRenameStep fs (processRenameFile f (.ok defn) false) f =
      some (renamedDefn defn oldId s) ∧
    ∀ q, q ≠ f → applyRenameStep fs (processRenameFile f (.ok defn) false) q = fs q := by
  have hstep : processRenameFile f (.ok defn) false =
      ⟨.mvFailed ("servers/" ++ (pyReplace (pyBasename f) ".json" "" ++ "-" ++ s ++ ".json")),
       some (f, renamedDefn defn oldId s), none⟩ := by
    simp only [processRenameFile, h1, h2, h3, h6, Bool.false_eq_true, if_false,
      if_neg h5, renamedDefn]
    rw [if_neg (by simp [h4])]
  rw [hstep]
  refine ⟨rfl, rfl, rfl, ?_, ?_⟩
  · show applyRenameStep fs _ f = _
    unfold applyRenameStep fsUpdate
    simp
  · intro q hq
    unfold applyRenameStep fsUpdate
    simp [hq]

theorem c2_rename_not_atomic_witness :
    (processRenameFile "servers/community.foo.json" (.ok npxRecord) false).moved = none ∧
    (processRenameFile "servers/community.foo.json" (.ok npxRecord) false).wrote =
      some ("servers/community.foo.json", renamedDefn npxRecord "community.foo" "npx") ∧
    (renamedDefn npxRecord "community.foo" "npx").id =
      some ("community.foo" ++ "-" ++ "npx") ∧
    applyRenameStep fooStore
        (processRenameFile "servers/community.foo.json" (.ok npxRecord) false)
        "servers/community.foo.json" = some (renamedDefn npxRecord "community.foo" "npx") ∧
    ∀ q, q ≠ "servers/community.foo.json" →
      applyRenameStep fooStore
        (processRenameFile "servers/community.foo.json" (.ok npxRecord) false) q =
      fooStore q :=
  c2_rename_not_atomic "servers/community.foo.json" npxRecord "community.foo" fooStore "npx"
    (by decide) (by decide) (by rfl) (by decide) (by decide) (by rfl)

/-! ## Claim C3 -/

/-- C3 counterexample: a record whose launcher command is the unrecognized
`node` is not left untouched — `get_tool_suffix` returns the command itself
as the suffix, and the file is rewritten and renamed with `-node`. -/
theorem c3_counterexample :
    get_tool_suffix nodeTransport = some "node" ∧
    (processRenameFile "servers/community.foo.json" (.ok nodeRecord) true).result =
      .renamed "community.foo.json" "community.foo-node.json" "community.foo-node" ∧
    (processRenameFile "servers/community.foo.json" (.ok nodeRecord) true).wrote =
      some ("servers/community.foo.json", renamedDefn nodeRecord "community.foo" "node") ∧
    (processRenameFile "servers/community.foo.json" (.ok nodeRecord) true).moved =
      some ("servers/community.foo.json", "servers/community.foo-node.json") :=
  ⟨rfl, rfl, rfl, rfl⟩

/-- C3 (amended): for a stdio record whose launcher command is none of npx,
uvx, docker, snyk (and not the literal string `http`), the record is left
untouched and flagged `unknown tool` only when the command is empty or
absent; any other unrecognized command is itself used as the suffix: the
record's id is rewritten to `<id>-<command>` and written out. -/
theorem c3_unknown_command (f : String) (defn : ServerRecord) (mv : Bool)
    (h1 : HTTP_ONLY_FILES.contains (pyBasename f) = false)
    (h2 : KNOWN_SUFFIXES.any (fun x => pyEndsWith (pyReplace (pyBasename f) ".json" "") x)
      = false)
    (h3 : (defn.transport.getD {}).ttype ≠ some "http")
    (h4 : (defn.transport.getD {}).command.getD "" ∉ (["npx", "uvx", "docker", "snyk", "http"] :
      List String)) :
    ((defn.transport.getD {}).command.getD "" = "" →
      processRenameFile f (.ok defn) mv = ⟨.skipUnknown, none, none⟩) ∧
    (∀ oldId, (defn.transport.getD {}).command.getD "" ≠ "" → defn.id = some oldId →
      (processRenameFile f (.ok defn) mv).wrote =
        some (f, renamedDefn defn oldId ((defn.transport.getD {}).command.getD "")) ∧
      (renamedDefn defn oldId ((defn.transport.getD {}).command.getD "")).id =
        some (oldId ++ "-" ++ (defn.transport.getD {}).command.getD "")) := by
  simp only [List.mem_cons, List.not_mem_nil, or_false, not_or] at h4
  obtain ⟨hnpx, huvx, hdocker, hsnyk, hhttp⟩ := h4
  constructor
  · intro hemp
    have hsuf : get_tool_suffix (defn.transport.getD {}) = none := by
      unfold get_tool_suffix
      rw [if_neg h3, if_neg (by simp [hnpx, huvx, hdocker]), if_neg hsnyk,
        if_neg (by simp [hemp])]
    have hmem : pyBasename f ∉ HTTP_ONLY_FILES := by simpa using h1
    simp [processRenameFile, h1, h2, hsuf, hmem]
  · intro oldId hne hid
    have hsuf : get_tool_suffix (defn.transport.getD {}) =
        some ((defn.transport.getD {}).command.getD "") := by
      unfold get_tool_suffix
      rw [if_neg h3, if_neg (by simp [hnpx, huvx, hdocker]), if_neg hsnyk, if_pos hne]
    refine ⟨?_, rfl⟩
    simp only [processRenameFile, h1, h2, hsuf, hid, Bool.false_eq_true, if_false,
      if_neg hne, renamedDefn]
    rw [if_neg (by simp [hhttp])]
    cases mv <;> rfl

theorem c3_unknown_command_witness :
    (((nodeRecord.transport.getD {}).command.getD "" = "") →
      processRenameFile "servers/community.foo.json" (.ok nodeRecord) true =
        ⟨.skipUnknown, none, none⟩) ∧
    (∀ oldId, (nodeRecord.transport.getD {}).command.getD "" ≠ "" →
      nodeRecord.id = some oldId →
      (processRenameFile "servers/community.foo.json" (.ok nodeRecord) true).wrote =
        some ("servers/community.foo.json",
          renamedDefn nodeRecord oldId ((nodeRecord.transport.getD {}).command.getD "")) ∧
      (renamedDefn nodeRecord oldId ((nodeRecord.transport.getD {}).command.getD "")).id =
        some (oldId ++ "-" ++ (nodeRecord.transport.getD {}).command.getD "")) :=
  c3_unknown_command "servers/community.foo.json" nodeRecord true
    (by decide) (by decide) (by decide) (by decide)

/-! ## fix_branches.py: the branch pipeline

The git backend is external to the scripts; it is modeled at its command
interface: an environment of success/failure outcomes plus diagnostic text
for each operation the pipeline issues, and an explicit working-tree state
(`current` branch, local branches, modified tracked files, an in-progress
rebase).  Semantics of each git command follow its documented contract. -/

structure GitState where
  current : String
  locals : List String
  dirty : Bool
  midRebase : Bool
  deriving Repr, DecidableEq

/-- `git branch -D b`: refuses to delete the checked-out branch; deleting a
missing branch fails silently (the callers pass `check=False`). -/
def gitBranchDelete (st : GitState) (b : String) : GitState :=
  if b = st.current then st else { st with locals := st.locals.erase b }

/-- `git checkout -b b <start>` in the success case: creates the branch at
the start point and switches to it with a clean tree. -/
def gitCheckoutNew (st : GitState) (b : String) : GitState :=
  { st with current := b, locals := b :: st.locals, dirty := false }

/-- `git checkout b` of an existing branch: succeeds unless no such local
branch exists or a rebase is in progress; on failure the state is unchanged
(the callers pass or ignore `check`). -/
def gitCheckout (st : GitState) (b : String) : GitState :=
  if b ∈ st.locals ∧ st.midRebase = false then { st with current := b } else st

/-- Outcomes of the external git/filesystem calls one `process_branch` run
will issue, plus the parse oracle for the changed files. -/
structure GitEnv where
  checkoutOk : Bool
  checkoutErr : String
  rebaseOk : Bool
  rebaseErr : String
  diffOut : Option String        -- `none` = diff command failed (run returns None)
  fileContent : String → Option (Except String ServerRecord)
  pushOk : Bool
  pushErr : String

/-- The per-branch result dictionary; absent keys are `none`/`[]`. -/
structure BranchResult where
  branch : String
  status : String
  fix_branch : Option String := none
  error : Option String := none
  fixes : List (String × String) := []
  files : List String := []
  deriving Repr, DecidableEq

/-- The branch-name normalization of line 127. -/
def shortName (b : String) : String :=
  pyReplace (pyReplace (pyReplace b "claude/add-" "") "-mcp-nYwV7" "") "-nYwV7" ""

/-- `fix_branch = f"fix/{short_name}"`. -/
def fixBranchOf (b : String) : String := "fix/" ++ shortName b

/-- Python falsiness of the diff output: command failure or empty stdout. -/
def diffFalsy : Option String → Bool
  | none => true
  | some s => s == ""

/-- `[f for f in out.strip().split('\n') if f.strip()]` (line 151). -/
def diffFilesOf (out : String) : List String :=
  (splitLinesStr (pyStrip out)).filter (fun f => pyStrip f ≠ "")

/-- The push-result classification of lines 175-179: `PUSH_ERROR` only when
the push command failed AND its stderr contains the substring `error`
(lowercased); everything else is reported `PUSHED`. -/
def pushClassified (env : GitEnv) (b fix_branch : String)
    (all_fixes : List (String × String)) (diff_files : List String) : BranchResult :=
  if env.pushOk = false ∧ containsSub (pyLower env.pushErr).data "error".data then
    { branch := b, fix_branch := some fix_branch, status := "PUSH_ERROR",
      error := some env.pushErr, fixes := all_fixes }
  else
    { branch := b, fix_branch := some fix_branch, status := "PUSHED",
      fixes := all_fixes, files := diff_files }

/-- `process_branch` (fix_branches.py lines 125-184): delete any stale fix
branch, check out a new one from the remote branch, rebase onto main (on
conflict: abort, return to main, delete the branch, report
`REBASE_CONFLICT`), detect changed server files (none: clean up, report
`NO_CHANGES`), run the per-file fix loop, commit if anything was fixed, push
and classify, and finally check out main again. -/
def process_branch (env : GitEnv) (st0 : GitState) (branch_name : String) :
    BranchResult × GitState :=
  let fix_branch := fixBranchOf branch_name
  let st1 := gitBranchDelete st0 fix_branch
  if env.checkoutOk = false then
    ({ branch := branch_name, status := "ERROR",
       error := some ("checkout failed: " ++ env.checkoutErr) }, st1)
  else
    let st2 := gitCheckoutNew st1 fix_branch
    if env.rebaseOk = false then
      -- the failed rebase leaves a conflicted tree; `git rebase --abort`
      -- restores the clean pre-rebase state
      let st3 : GitState := { st2 with midRebase := false, dirty := false }
      let st4 := gitCheckout st3 "main"
      let st5 := gitBranchDelete st4 fix_branch
      ({ branch := branch_name, status := "REBASE_CONFLICT", error := some env.rebaseErr }, st5)
    else
      if diffFalsy env.diffOut then
        let st3 := gitCheckout st2 "main"
        let st4 := gitBranchDelete st3 fix_branch
        ({ branch := branch_name, status := "NO_CHANGES",
           error := some "No server files differ from main" }, st4)
      else
        let diff_files := diffFilesOf (env.diffOut.getD "")
        let all_fixes := processFilesEnv env.fileContent diff_files
        let wrote := diff_files.any (fileWrote env.fileContent)
        let stA := { st2 with dirty := st2.dirty || wrote }
        let stB := if all_fixes.isEmpty then stA else { stA with dirty := false }
        let result := pushClassified env branch_name fix_branch all_fixes diff_files
        let stC := gitCheckout stB "main"
        (result, stC)

/-! ## Path equations for process_branch -/

theorem process_branch_error (env : GitEnv) (st0 : GitState) (b : String)
    (hco : env.checkoutOk = false) :
    process_branch env st0 b =
      ({ branch := b, status := "ERROR",
         error := some ("checkout failed: " ++ env.checkoutErr) },
       gitBranchDelete st0 (fixBranchOf b)) := by
  unfold process_branch
  rw [if_pos hco]

theorem process_branch_rebase_fail (env : GitEnv) (st0 : GitState) (b : String)
    (hco : env.checkoutOk = true) (hrb : env.rebaseOk = false) :
    process_branch env st0 b =
      ({ branch := b, status := "REBASE_CONFLICT", error := some env.rebaseErr },
       gitBranchDelete
         (gitCheckout
           { gitCheckoutNew (gitBranchDelete st0 (fixBranchOf b)) (fixBranchOf b) with
             midRebase := false, dirty := false } "main")
         (fixBranchOf b)) := by
  unfold process_branch
  rw [if_neg (by simp [hco]), if_pos hrb]

theorem process_branch_no_changes (env : GitEnv) (st0 : GitState) (b : String)
    (hco : env.checkoutOk = true) (hrb : env.rebaseOk = true)
    (hd : diffFalsy env.diffOut = true) :
    process_branch env st0 b =
      ({ branch := b, status := "NO_CHANGES",
         error := some "No server files differ from main" },
       gitBranchDelete
         (gitCheckout (gitCheckoutNew (gitBranchDelete st0 (fixBranchOf b)) (fixBranchOf b))
           "main")
         (fixBranchOf b)) := by
  unfold process_branch
  rw [if_neg (by simp [hco]), if_neg (by simp [hrb]), if_pos hd]

theorem process_branch_push (env : GitEnv) (st0 : GitState) (b : String)
    (hco : env.checkoutOk = true) (hrb : env.rebaseOk = true)
    (hd : diffFalsy env.diffOut = false) :
    process_branch env st0 b =
      (pushClassified env b (fixBranchOf b)
        (processFilesEnv env.fileContent (diffFilesOf (env.diffOut.getD "")))
        (diffFilesOf (env.diffOut.getD "")),
       gitCheckout
         (if (processFilesEnv env.fileContent (diffFilesOf (env.diffOut.getD ""))).isEmpty
          then
            { gitCheckoutNew (gitBranchDelete st0 (fixBranchOf b)) (fixBranchOf b) with
              dirty := (gitCheckoutNew (gitBranchDelete st0 (fixBranchOf b))
                (fixBranchOf b)).dirty ||
                (diffFilesOf (env.diffOut.getD "")).any (fileWrote env.fileContent) }
          else
            { gitCheckoutNew (gitBranchDelete st0 (fixBranchOf b)) (fixBranchOf b) with
              dirty := false }) "main") := by
  unfold process_branch
  rw [if_neg (by simp [hco]), if_neg (by simp [hrb]), if_neg (by simp [hd])]

/-! ## State helper lemmas -/

theorem fixBranchOf_ne_main (b : String) : fixBranchOf b ≠ "main" := by
  unfold fixBranchOf
  generalize shortName b = s
  obtain ⟨l⟩ := s
  intro h
  have h2 : 'f' :: 'i' :: 'x' :: '/' :: l = ['m', 'a', 'i', 'n'] := congrArg String.data h
  injection h2 with h3 h4
  exact absurd h3 (by decide)

theorem gitBranchDelete_current (st : GitState) (b : String) :
    (gitBranchDelete st b).current = st.current := by
  unfold gitBranchDelete; split <;> rfl

theorem gitBranchDelete_midRebase (st : GitState) (b : String) :
    (gitBranchDelete st b).midRebase = st.midRebase := by
  unfold gitBranchDelete; split <;> rfl

theorem gitBranchDelete_mem (st : GitState) {a b : String} (ha : a ∈ st.locals) (hab : a ≠ b) :
    a ∈ (gitBranchDelete st b).locals := by
  unfold gitBranchDelete
  split
  · exact ha
  · exact (List.mem_erase_of_ne hab).mpr ha

theorem gitCheckout_main (st : GitState) (hm : "main" ∈ st.locals)
    (hr : st.midRebase = false) : gitCheckout st "main" = { st with current := "main" } := by
  unfold gitCheckout; rw [if_pos ⟨hm, hr⟩]

theorem gitCheckout_current_main (st : GitState) (hm : "main" ∈ st.locals)
    (hr : st.midRebase = false) : (gitCheckout st "main").current = "main" := by
  rw [gitCheckout_main st hm hr]

/-! ## Claim C6 -/

/-- C6: whatever terminal state a branch run reaches — PUSHED, PUSH_ERROR,
REBASE_CONFLICT, NO_CHANGES, or a checkout error that never left trunk — the
shared working tree is back on `main` when `process_branch` returns. -/
theorem c6_back_on_trunk (env : GitEnv) (st0 : GitState) (b : String)
    (h1 : st0.current = "main") (h2 : "main" ∈ st0.locals) (h3 : st0.midRebase = false) :
    ((process_branch env st0 b).2).current = "main" := by
  have hfb := fixBranchOf_ne_main b
  have hmem1 : "main" ∈ (gitBranchDelete st0 (fixBranchOf b)).locals :=
    gitBranchDelete_mem st0 h2 (Ne.symm hfb)
  have hmid2 : (gitCheckoutNew (gitBranchDelete st0 (fixBranchOf b))
      (fixBranchOf b)).midRebase = false := by
    show (gitBranchDelete st0 (fixBranchOf b)).midRebase = false
    rw [gitBranchDelete_midRebase, h3]
  by_cases hco : env.checkoutOk = false
  · rw [process_branch_error env st0 b hco]
    simp [gitBranchDelete_current, h1]
  · have hco' : env.checkoutOk = true := by revert hco; cases env.checkoutOk <;> simp
    by_cases hrb : env.rebaseOk = false
    · rw [process_branch_rebase_fail env st0 b hco' hrb]
      simp only [gitBranchDelete_current]
      rw [gitCheckout_main _ (List.mem_cons_of_mem _ hmem1) rfl]
    · have hrb' : env.rebaseOk = true := by revert hrb; cases env.rebaseOk <;> simp
      by_cases hd : diffFalsy env.diffOut = true
      · rw [process_branch_no_changes env st0 b hco' hrb' hd]
        simp only [gitBranchDelete_current]
        rw [gitCheckout_main _ (List.mem_cons_of_mem _ hmem1) hmid2]
      · have hd' : diffFalsy env.diffOut = false := by
          revert hd; cases diffFalsy env.diffOut <;> simp
        rw [process_branch_push env st0 b hco' hrb' hd']
        by_cases he : (processFilesEnv env.fileContent
            (diffFilesOf (env.diffOut.getD ""))).isEmpty
        · rw [if_pos he]
          exact gitCheckout_current_main _ (List.mem_cons_of_mem _ hmem1) hmid2
        · rw [if_neg he]
          exact gitCheckout_current_main _ (List.mem_cons_of_mem _ hmem1) hmid2

/-- A clean working tree checked out on main. -/
def mainState : GitState :=
  { current := "main", locals := ["main"], dirty := false, midRebase := false }

/-- An environment whose rebase step fails with a conflict diagnostic. -/
def conflictEnv : GitEnv :=
  { checkoutOk := true, checkoutErr := "", rebaseOk := false,
    rebaseErr := "CONFLICT (content): merge conflict", diffOut := none,
    fileContent := fun _ => none, pushOk := true, pushErr := "" }

theorem c6_back_on_trunk_witness :
    ((process_branch conflictEnv mainState "claude/add-foo").2).current = "main" :=
  c6_back_on_trunk conflictEnv mainState "claude/add-foo" rfl (by decide) rfl

/-! ## Claim C5 -/

/-- C5: a failed rebase yields the terminal REBASE_CONFLICT result carrying
the rebase diagnostic verbatim, after aborting the rebase, returning the tree
to main and deleting the partial fix branch: the final state is on `main`,
holds no fix branch, has a clean tree and no rebase in progress. -/
theorem c5_rebase_conflict_rollback (env : GitEnv) (st0 : GitState) (b : String)
    (h1 : st0.current = "main") (h2 : "main" ∈ st0.locals) (h3 : st0.midRebase = false)
    (h4 : st0.locals.Nodup) (hco : env.checkoutOk = true) (hrb : env.rebaseOk = false) :
    (process_branch env st0 b).1 =
      { branch := b, status := "REBASE_CONFLICT", error := some env.rebaseErr } ∧
    (process_branch env st0 b).2.current = "main" ∧
    fixBranchOf b ∉ (process_branch env st0 b).2.locals ∧
    (process_branch env st0 b).2.dirty = false ∧
    (process_branch env st0 b).2.midRebase = false := by
  have hfb := fixBranchOf_ne_main b
  have hdel1 : gitBranchDelete st0 (fixBranchOf b) =
      { st0 with locals := st0.locals.erase (fixBranchOf b) } := by
    unfold gitBranchDelete
    rw [if_neg (by rw [h1]; exact hfb)]
  have hmem1 : "main" ∈ (gitBranchDelete st0 (fixBranchOf b)).locals :=
    gitBranchDelete_mem st0 h2 (Ne.symm hfb)
  have hnot1 : fixBranchOf b ∉ (gitBranchDelete st0 (fixBranchOf b)).locals := by
    rw [hdel1]
    intro hmem
    exact absurd ((h4.mem_erase_iff).mp hmem).1 (by simp)
  rw [process_branch_rebase_fail env st0 b hco hrb]
  have hck : gitCheckout
      { gitCheckoutNew (gitBranchDelete st0 (fixBranchOf b)) (fixBranchOf b) with
        midRebase := false, dirty := false } "main" =
      { gitCheckoutNew (gitBranchDelete st0 (fixBranchOf b)) (fixBranchOf b) with
        midRebase := false, dirty := false, current := "main" } :=
    gitCheckout_main _ (List.mem_cons_of_mem _ hmem1) rfl
  rw [hck]
  refine ⟨rfl, ?_, ?_, ?_, ?_⟩
  · rw [gitBranchDelete_current]
  · show fixBranchOf b ∉
      (gitBranchDelete
        { gitCheckoutNew (gitBranchDelete st0 (fixBranchOf b)) (fixBranchOf b) with
          midRebase := false, dirty := false, current := "main" } (fixBranchOf b)).locals
    unfold gitBranchDelete
    rw [if_neg hfb]
    show fixBranchOf b ∉
      ((fixBranchOf b) :: (gitBranchDelete st0 (fixBranchOf b)).locals).erase (fixBranchOf b)
    rw [List.erase_cons_head]
    exact hnot1
  · show (gitBranchDelete _ _).dirty = false
    unfold gitBranchDelete
    split <;> rfl
  · rw [gitBranchDelete_midRebase]

theorem c5_rebase_conflict_rollback_witness :
    (process_branch conflictEnv mainState "claude/add-foo").1 =
      { branch := "claude/add-foo", status := "REBASE_CONFLICT",
        error := some "CONFLICT (content): merge conflict" } ∧
    (process_branch conflictEnv mainState "claude/add-foo").2.current = "main" ∧
    fixBranchOf "claude/add-foo" ∉
      (process_branch conflictEnv mainState "claude/add-foo").2.locals ∧
    (process_branch conflictEnv mainState "claude/add-foo").2.dirty = false ∧
    (process_branch conflictEnv mainState "claude/add-foo").2.midRebase = false :=
  c5_rebase_conflict_rollback conflictEnv mainState "claude/add-foo"
    rfl (by decide) rfl (by decide) rfl rfl

/-! ## Claim C4 -/

/-- C4 (amended): when the push command fails, the branch result is
PUSH_ERROR carrying the diagnostic verbatim only if the diagnostic contains
the substring `error` case-insensitively; a failed push whose diagnostic
lacks that substring is reported as PUSHED. -/
theorem c4_push_classification (env : GitEnv) (st0 : GitState) (b : String)
    (hco : env.checkoutOk = true) (hrb : env.rebaseOk = true)
    (hd : diffFalsy env.diffOut = false) (hp : env.pushOk = false) :
    (containsSub (pyLower env.pushErr).data "error".data = true →
      (process_branch env st0 b).1.status = "PUSH_ERROR" ∧
      (process_branch env st0 b).1.error = some env.pushErr) ∧
    (containsSub (pyLower env.pushErr).data "error".data = false →
      (process_branch env st0 b).1.status = "PUSHED") := by
  rw [process_branch_push env st0 b hco hrb hd]
  unfold pushClassified
  constructor
  · intro hcc
    rw [if_pos ⟨hp, hcc⟩]
    exact ⟨rfl, rfl⟩
  · intro hcc
    rw [if_neg (by simp [hcc])]

/-- A push failure whose stderr lacks the substring `error`. -/
def badPushEnv : GitEnv :=
  { checkoutOk := true, checkoutErr := "", rebaseOk := true, rebaseErr := "",
    diffOut := some "servers/foo.json", fileContent := fun _ => none,
    pushOk := false, pushErr := "fatal: unable to access remote" }

/-- A push failure whose stderr contains the substring `error`. -/
def errPushEnv : GitEnv :=
  { checkoutOk := true, checkoutErr := "", rebaseOk := true, rebaseErr := "",
    diffOut := some "servers/foo.json", fileContent := fun _ => none,
    pushOk := false, pushErr := "error: failed to push some refs" }

/-- C4 counterexample: the push fails (`pushOk = false`) but its diagnostic
contains no `error` substring, and the branch is reported PUSHED. -/
theorem c4_counterexample :
    badPushEnv.pushOk = false ∧
    (process_branch badPushEnv mainState "claude/add-foo").1.status = "PUSHED" :=
  ⟨rfl, rfl⟩

theorem c4_push_classification_witness :
    (containsSub (pyLower errPushEnv.pushErr).data "error".data = true →
      (process_branch errPushEnv mainState "claude/add-foo").1.status = "PUSH_ERROR" ∧
      (process_branch errPushEnv mainState "claude/add-foo").1.error =
        some errPushEnv.pushErr) ∧
    (containsSub (pyLower errPushEnv.pushErr).data "error".data = false →
      (process_branch errPushEnv mainState "claude/add-foo").1.status = "PUSHED") :=
  c4_push_classification errPushEnv mainState "claude/add-foo" rfl rfl rfl rfl

/-! ## fix_branches.py: branch enumeration and processing order (C9) -/

/-- `get_remote_branches` (lines 119-123): split the for-each-ref output into
lines, keep non-blank lines, strip each and remove the `origin/` prefix via
`str.replace`. -/
def get_remote_branches (out : Option String) : List String :=
  match out with
  | none => []
  | some o =>
    if o = "" then []
    else ((splitLinesStr (pyStrip o)).filter (fun b => pyStrip b ≠ "")).map
      (fun b => pyReplace (pyStrip b) "origin/" "")

/-- The `__main__` loop (lines 203-210): results are appended in the order of
`get_remote_branches`. -/
def mainResults (out : Option String) (proc : String → BranchResult) : List BranchResult :=
  (get_remote_branches out).map proc

/-- `for branch in sorted(branches)` of rename_files.py line 61 (and
fix_ids.py line 50): the iteration order over the parsed branch list.
Python's `sorted` is a stable sort by string order; `insertionSort` with the
same total order produces the identical sequence. -/
def rf_branch_order (branches : List String) : List String :=
  List.insertionSort (· ≤ ·) branches

/-- The stdout `git for-each-ref --format="%(refname:short)"
"refs/remotes/origin/claude/add-*"` produces for the branch list `bs`: one
line `origin/<branch>` per branch, newline-separated. -/
def joinWith (sep : List Char) : List (List Char) → List Char
  | [] => []
  | [l] => l
  | l :: ls => l ++ sep ++ joinWith sep ls

def encodeForEachRef (bs : List String) : String :=
  ⟨joinWith ['\n'] (bs.map (fun b => "origin/".data ++ b.data))⟩

/-! ### splitBy lemmas -/

theorem splitBy_no_sep {p : Char → Bool} : ∀ {l : List Char},
    (∀ c ∈ l, p c = false) → splitBy p l = [l] := by
  intro l
  induction l with
  | nil => intro _; rfl
  | cons c t ih =>
    intro h
    have hc : p c = false := h c (by simp)
    have ht := ih (fun x hx => h x (by simp [hx]))
    simp only [splitBy, hc, Bool.false_eq_true, if_false, ht]

theorem splitBy_chunk {p : Char → Bool} {c₀ : Char} (hc : p c₀ = true)
    (rest : List Char) :
    ∀ l : List Char, (∀ c ∈ l, p c = false) →
      splitBy p (l ++ c₀ :: rest) = l :: splitBy p rest := by
  intro l
  induction l with
  | nil =>
    intro _
    simp only [List.nil_append, splitBy, hc, if_true]
  | cons a t ih =>
    intro h
    have ha : p a = false := h a (by simp)
    have ht := ih (fun x hx => h x (by simp [hx]))
    rw [List.cons_append]
    rw [show splitBy p (a :: (t ++ c₀ :: rest)) =
      (if p a = true then [] :: splitBy p (t ++ c₀ :: rest)
       else match splitBy p (t ++ c₀ :: rest) with
         | [] => [[a]]
         | h :: t2 => (a :: h) :: t2) from rfl]
    rw [ha, if_neg (by simp), ht]

theorem splitBy_joinWith {p : Char → Bool} {c₀ : Char} (hc : p c₀ = true) :
    ∀ {ls : List (List Char)}, ls ≠ [] → (∀ l ∈ ls, ∀ c ∈ l, p c = false) →
      splitBy p (joinWith [c₀] ls) = ls := by
  intro ls
  induction ls with
  | nil => intro h; exact absurd rfl h
  | cons l rest ih =>
    intro _ h
    cases rest with
    | nil => exact splitBy_no_sep (h l (by simp))
    | cons l2 rest2 =>
      have : joinWith [c₀] (l :: l2 :: rest2) = l ++ c₀ :: joinWith [c₀] (l2 :: rest2) := by
        show l ++ [c₀] ++ joinWith [c₀] (l2 :: rest2) = _
        rw [List.append_assoc]
        rfl
      rw [this, splitBy_chunk hc (joinWith [c₀] (l2 :: rest2)) l (h l (by simp)),
        ih (by simp) (fun x hx => h x (by simp [hx]))]

/-! ### strip lemmas -/

theorem dropWhile_of_head {l : List Char} (h : ∀ c, l.head? = some c → pyWSb c = false) :
    l.dropWhile pyWSb = l := by
  cases l with
  | nil => rfl
  | cons a t => simp [List.dropWhile_cons, h a rfl]

theorem stripCh_id {l : List Char} (h1 : ∀ c, l.head? = some c → pyWSb c = false)
    (h2 : ∀ c, l.getLast? = some c → pyWSb c = false) : stripCh l = l := by
  unfold stripCh
  rw [dropWhile_of_head h1]
  rw [dropWhile_of_head (fun c hcz => h2 c (by rw [← List.head?_reverse]; exact hcz))]
  exact List.reverse_reverse l

/-! ### joinWith head and last -/

theorem joinWith_head_cons (sep t : List Char) (c : Char) (ls : List (List Char)) :
    (joinWith sep ((c :: t) :: ls)).head? = some c := by
  cases ls with
  | nil => rfl
  | cons l2 rest => rfl

theorem getLast?_append_right {l₁ l₂ : List Char} (h : l₂ ≠ []) :
    (l₁ ++ l₂).getLast? = l₂.getLast? := by
  induction l₁ with
  | nil => rfl
  | cons a t ih =>
    have hne : t ++ l₂ ≠ [] := by
      intro hx
      exact h (List.append_eq_nil.mp hx).2
    cases hx : t ++ l₂ with
    | nil => exact absurd hx hne
    | cons b u =>
      show ((a :: t) ++ l₂).getLast? = l₂.getLast?
      rw [List.cons_append, hx, List.getLast?_cons_cons, ← hx, ih]

theorem joinWith_ne_nil {c₀ : Char} : ∀ (a : List Char) (rest : List (List Char)),
    rest ≠ [] → joinWith [c₀] (a :: rest) ≠ [] := by
  intro a rest h
  cases rest with
  | nil => exact absurd rfl h
  | cons l2 rest2 =>
    show a ++ [c₀] ++ joinWith [c₀] (l2 :: rest2) ≠ []
    simp

theorem joinWith_getLast?_concat {c₀ : Char} :
    ∀ (ls : List (List Char)) (x : List Char), x ≠ [] →
      (joinWith [c₀] (ls ++ [x])).getLast? = x.getLast? := by
  intro ls
  induction ls with
  | nil => intro x _; rfl
  | cons a rest ih =>
    intro x hx
    have hne : rest ++ [x] ≠ [] := by simp
    have : joinWith [c₀] ((a :: rest) ++ [x]) =
        a ++ c₀ :: joinWith [c₀] (rest ++ [x]) := by
      show joinWith [c₀] (a :: (rest ++ [x])) = _
      cases hr : rest ++ [x] with
      | nil => exact absurd hr hne
      | cons l2 rest2 =>
        show a ++ [c₀] ++ joinWith [c₀] (l2 :: rest2) = _
        rw [List.append_assoc]
        rfl
    rw [this, getLast?_append_right (by simp)]
    have hjn : joinWith [c₀] (rest ++ [x]) ≠ [] := by
      cases rest with
      | nil => exact hx
      | cons l2 rest2 => exact joinWith_ne_nil l2 (rest2 ++ [x]) (by simp)
    cases hj : joinWith [c₀] (rest ++ [x]) with
    | nil => exact absurd hj hjn
    | cons d u =>
      rw [List.getLast?_cons_cons, ← hj, ih x hx]

/-! ### replaceAll lemmas -/

theorem isPrefixOf_append (pat t : List Char) : pat.isPrefixOf (pat ++ t) = true :=
  List.isPrefixOf_iff_prefix.mpr (List.prefix_append pat t)

theorem replaceAll_head_match {pat : List Char} (rep t : List Char) (hp : pat ≠ []) :
    replaceAll pat rep (pat ++ t) = rep ++ replaceAll pat rep t := by
  unfold replaceAll
  cases hpat : pat with
  | nil => exact absurd hpat hp
  | cons p ps =>
    rw [← hpat]
    have hlen : (pat ++ t).length = (ps ++ t).length + 1 := by
      rw [hpat]; simp
    rw [hlen]
    have hshape : pat ++ t = p :: (ps ++ t) := by rw [hpat]; rfl
    conv => lhs; rw [hshape]
    rw [show replaceAllAux pat rep ((ps ++ t).length + 1) (p :: (ps ++ t)) =
      if pat ≠ [] ∧ pat.isPrefixOf (p :: (ps ++ t)) then
        rep ++ replaceAllAux pat rep (ps ++ t).length ((p :: (ps ++ t)).drop pat.length)
      else p :: replaceAllAux pat rep (ps ++ t).length (ps ++ t) from rfl]
    rw [if_pos ⟨hp, by rw [← hshape]; exact isPrefixOf_append pat t⟩]
    have hdrop : (p :: (ps ++ t)).drop pat.length = t := by
      rw [← hshape]; exact List.drop_left pat t
    rw [hdrop]
    congr 1
    apply replaceAllAux_fuel
    · have : pat.length = ps.length + 1 := by rw [hpat]; rfl
      simp only [List.length_append]
      omega
    · exact le_refl _

theorem replaceAll_no_occur {pat rep : List Char} : ∀ {l : List Char},
    containsSub l pat = false → replaceAll pat rep l = l := by
  have aux : ∀ n (l : List Char), l.length ≤ n → containsSub l pat = false →
      replaceAllAux pat rep n l = l := by
    intro n
    induction n with
    | zero => intro l _ _; rfl
    | succ n ih =>
      intro l hlen hocc
      cases l with
      | nil => rfl
      | cons c t =>
        have hpre : pat.isPrefixOf (c :: t) = false := by
          by_contra hx
          have : pat.isPrefixOf (c :: t) = true := by
            revert hx; cases pat.isPrefixOf (c :: t) <;> simp
          unfold containsSub at hocc
          rw [if_pos this] at hocc
          exact absurd hocc (by simp)
        have hocct : containsSub t pat = false := by
          unfold containsSub at hocc
          rw [if_neg (by simp [hpre])] at hocc
          exact hocc
        show (if pat ≠ [] ∧ pat.isPrefixOf (c :: t) then _ else
          c :: replaceAllAux pat rep n t) = c :: t
        rw [if_neg (by simp [hpre])]
        rw [ih t (by simp only [List.length_cons] at hlen; omega) hocct]
  intro l hocc
  exact aux l.length l (le_refl _) hocc

theorem mem_of_getLastOpt : ∀ {l : List Char} {c : Char}, l.getLast? = some c → c ∈ l := by
  intro l
  induction l with
  | nil => intro c h; exact absurd h (by simp)
  | cons a t ih =>
    intro c h
    cases t with
    | nil =>
      rw [show ([a] : List Char).getLast? = some a from rfl] at h
      simp only [Option.some.injEq] at h
      simp [h]
    | cons d u =>
      rw [List.getLast?_cons_cons] at h
      exact List.mem_cons_of_mem _ (ih h)

/-- Each for-each-ref line survives `strip` untouched: it starts with `o` and
ends with a non-whitespace branch character. -/
theorem line_strip_id (b : String) (hne : b.data ≠ []) (hws : ∀ c ∈ b.data, pyWSb c = false) :
    pyStrip (⟨"origin/".data ++ b.data⟩ : String) = ⟨"origin/".data ++ b.data⟩ := by
  apply String.ext
  show stripCh ("origin/".data ++ b.data) = "origin/".data ++ b.data
  apply stripCh_id
  · intro c hc
    rw [show ("origin/".data ++ b.data).head? = some 'o' from rfl] at hc
    simp only [Option.some.injEq] at hc
    rw [← hc]
    decide
  · intro c hc
    rw [getLast?_append_right hne] at hc
    exact hws c (mem_of_getLastOpt hc)

theorem line_ne_empty (b : String) : (⟨"origin/".data ++ b.data⟩ : String) ≠ "" := by
  intro h
  have h2 : "origin/".data ++ b.data = [] := congrArg String.data h
  exact absurd (List.append_eq_nil.mp h2).1 (by decide)

theorem line_replace (b : String) (hocc : containsSub b.data "origin/".data = false) :
    pyReplace (⟨"origin/".data ++ b.data⟩ : String) "origin/" "" = b := by
  apply String.ext
  show replaceAll "origin/".data "".data ("origin/".data ++ b.data) = b.data
  rw [replaceAll_head_match _ _ (by decide), replaceAll_no_occur hocc]
  rfl

/-- The filter-and-strip-and-replace comprehension of `get_remote_branches`,
applied to well-formed for-each-ref lines, recovers the branch list in order. -/
theorem lines_pipeline : ∀ (bs : List String),
    (∀ b ∈ bs, b.data ≠ [] ∧ (∀ c ∈ b.data, pyWSb c = false) ∧
      containsSub b.data "origin/".data = false) →
    (((bs.map (fun b => "origin/".data ++ b.data)).map
        (fun l => (⟨l⟩ : String))).filter (fun b => pyStrip b ≠ "")).map
      (fun b => pyReplace (pyStrip b) "origin/" "") = bs := by
  intro bs
  induction bs with
  | nil => intro _; rfl
  | cons b rest ih =>
    intro hb
    obtain ⟨h1, h2, h3⟩ := hb b (by simp)
    have hsid := line_strip_id b h1 h2
    have hne := line_ne_empty b
    have hrep := line_replace b h3
    simp only [List.map_cons, List.filter_cons]
    rw [if_pos (by rw [hsid]; exact decide_eq_true hne)]
    rw [List.map_cons]
    rw [hsid, hrep]
    rw [ih (fun x hx => hb x (by simp [hx]))]

/-- C9: branches are processed in a stable, sorted order.  The orchestrator
of fix_branches.py preserves exactly the order in which the facade
(`git for-each-ref`, which emits refs sorted by refname — all sharing the
prefix `refs/remotes/origin/`) lists the branches, so its per-branch result
sequence is that sorted order; rename_files.py (and fix_ids.py) iterate
`sorted(branches)`, which is sorted for every input. -/
theorem c9_branch_processing_order (bs : List String)
    (hb : ∀ b ∈ bs, b.data ≠ [] ∧ (∀ c ∈ b.data, pyWSb c = false) ∧
      containsSub b.data "origin/".data = false) :
    get_remote_branches (some (encodeForEachRef bs)) = bs ∧
    (∀ proc : String → BranchResult,
      mainResults (some (encodeForEachRef bs)) proc = bs.map proc) ∧
    (∀ cs : List String, List.Sorted (· ≤ ·) (rf_branch_order cs)) := by
  have hmain : get_remote_branches (some (encodeForEachRef bs)) = bs := by
    cases bs with
    | nil => rfl
    | cons b0 rest =>
      obtain ⟨hb0ne, hb0ws, hb0occ⟩ := hb b0 (by simp)
      have hhead : (joinWith ['\n']
          ((b0 :: rest).map (fun b => "origin/".data ++ b.data))).head? = some 'o' := by
        show (joinWith ['\n'] (("origin/".data ++ b0.data) ::
          rest.map (fun b => "origin/".data ++ b.data))).head? = some 'o'
        rw [show "origin/".data ++ b0.data = 'o' :: ("rigin/".data ++ b0.data) from rfl]
        exact joinWith_head_cons _ _ _ _
      obtain hcon | ⟨L, bl, hL⟩ := List.eq_nil_or_concat (b0 :: rest)
      · exact absurd hcon (by simp)
      · have hblmem : bl ∈ b0 :: rest := by
          rw [hL, List.concat_eq_append]
          simp
        obtain ⟨hblne, hblws, -⟩ := hb bl hblmem
        have hlinesmap : (b0 :: rest).map (fun b => "origin/".data ++ b.data) =
            (L.map (fun b => "origin/".data ++ b.data)) ++ ["origin/".data ++ bl.data] := by
          rw [hL, List.concat_eq_append, List.map_append]
          rfl
        have hlast : (joinWith ['\n']
            ((b0 :: rest).map (fun b => "origin/".data ++ b.data))).getLast? =
            bl.data.getLast? := by
          rw [hlinesmap, joinWith_getLast?_concat _ _ (by simp)]
          exact getLast?_append_right hblne
        have honeq : (⟨joinWith ['\n']
            ((b0 :: rest).map (fun b => "origin/".data ++ b.data))⟩ : String) ≠ "" := by
          intro h
          have h2 : joinWith ['\n'] ((b0 :: rest).map (fun b => "origin/".data ++ b.data)) =
              [] := congrArg String.data h
          rw [h2] at hhead
          exact absurd hhead (by simp)
        have hstrip : pyStrip (⟨joinWith ['\n']
            ((b0 :: rest).map (fun b => "origin/".data ++ b.data))⟩ : String) =
            ⟨joinWith ['\n'] ((b0 :: rest).map (fun b => "origin/".data ++ b.data))⟩ := by
          apply String.ext
          show stripCh (joinWith ['\n'] ((b0 :: rest).map (fun b => "origin/".data ++ b.data)))
            = joinWith ['\n'] ((b0 :: rest).map (fun b => "origin/".data ++ b.data))
          apply stripCh_id
          · intro c hc
            rw [hhead] at hc
            simp only [Option.some.injEq] at hc
            rw [← hc]
            decide
          · intro c hc
            rw [hlast] at hc
            exact hblws c (mem_of_getLastOpt hc)
        have hsplit : splitBy (· == '\n')
            (⟨joinWith ['\n'] ((b0 :: rest).map (fun b => "origin/".data ++ b.data))⟩ :
              String).data =
            (b0 :: rest).map (fun b => "origin/".data ++ b.data) := by
          show splitBy (· == '\n')
            (joinWith ['\n'] ((b0 :: rest).map (fun b => "origin/".data ++ b.data))) = _
          apply splitBy_joinWith (by decide) (by simp)
          intro l hl c hcl
          obtain ⟨b, hbmem, hbl⟩ := List.mem_map.mp hl
          rw [← hbl] at hcl
          rcases List.mem_append.mp hcl with hcp | hcb
          · have hcn : c ≠ '\n' := by
              intro h
              subst h
              revert hcp
              decide
            exact beq_eq_false_iff_ne.mpr hcn
          · have hws := (hb b hbmem).2.1 c hcb
            have hcn : c ≠ '\n' := by
              intro h
              subst h
              rw [show pyWSb '\n' = true from rfl] at hws
              exact absurd hws (by simp)
            exact beq_eq_false_iff_ne.mpr hcn
        show (if (⟨joinWith ['\n'] ((b0 :: rest).map (fun b => "origin/".data ++ b.data))⟩ :
              String) = "" then ([] : List String)
          else ((splitLinesStr (pyStrip (⟨joinWith ['\n']
              ((b0 :: rest).map (fun b => "origin/".data ++ b.data))⟩ : String))).filter
            (fun b => pyStrip b ≠ "")).map (fun b => pyReplace (pyStrip b) "origin/" "")) =
          b0 :: rest
        rw [if_neg honeq, hstrip]
        unfold splitLinesStr
        rw [hsplit]
        exact lines_pipeline (b0 :: rest) hb
  refine ⟨hmain, ?_, ?_⟩
  · intro proc
    unfold mainResults
    rw [hmain]
  · intro cs
    exact List.sorted_insertionSort (· ≤ ·) cs

theorem c9_branch_processing_order_witness :
    get_remote_branches
        (some (encodeForEachRef ["claude/add-alpha", "claude/add-beta"])) =
      ["claude/add-alpha", "claude/add-beta"] :=
  (c9_branch_processing_order ["claude/add-alpha", "claude/add-beta"] (by decide)).1
